import Mathlib

/-
Verification of the rhiza-cli template synchronization engine.

This file gives a shallow embedding of the sync/materialize core of the
repository (src/rhiza/commands/sync.py and src/rhiza/commands/materialize.py)
and proves or refutes the frozen claims about it.

The target filesystem, the upstream clone and the base clone are modelled as
association lists from relative path to file content.  External collaborators
(the git subprocess calls) are modelled as parameters: the result of
`git merge-file` is an arbitrary function argument, and the base clone at a
recorded commit is an oracle returning either a tree, a git failure
(which `_clone_at_sha` turns into `sys.exit(1)`, i.e. `SystemExit`), or an
exception during the snapshot read (which the orchestrator catches).
-/

namespace Rhiza

/-- Relative, forward-slash separated file path. -/
abbrev RelPath := String

/-- Full text content of a file. -/
abbrev Content := String

/-- A filesystem (or snapshot): a finite map from relative path to content,
represented as an association list whose first matching key wins. -/
abbrev FS := List (RelPath × Content)

/-- Look up the content of a file; `none` means the file does not exist. -/
def lookupFS : FS → RelPath → Option Content
  | [], _ => none
  | (k, v) :: rest, p => if k = p then some v else lookupFS rest p

/-- Write a file: replace the content when the path exists, append otherwise.
This is the semantics of `path.write_text` and of a Python dict assignment. -/
def setFile : FS → RelPath → Content → FS
  | [], p, c => [(p, c)]
  | (k, v) :: rest, p, c => if k = p then (p, c) :: rest else (k, v) :: setFile rest p c

/-- Python `str.isspace` characters relevant to `str.strip()` on ASCII text. -/
def isPyWS (c : Char) : Bool :=
  c = ' ' || c = '\t' || c = '\n' || c = '\r' || c = '\x0b' || c = '\x0c'

/-- Strip leading and trailing whitespace from a character list
(right side first, then left). -/
def stripChars (cs : List Char) : List Char :=
  ((cs.reverse.dropWhile isPyWS).reverse).dropWhile isPyWS

/-- Embedding of Python `str.strip()` (whitespace stripping on both ends). -/
def pyStrip (s : String) : String := String.mk (stripChars s.data)

/-- Path of the lock file, `LOCK_FILE = ".rhiza/template.lock"` in `sync.py`. -/
def lockFilePath : RelPath := ".rhiza/template.lock"

/-- Path of the template configuration file, `.rhiza/template.yml`. -/
def templateConfigPath : RelPath := ".rhiza/template.yml"

/-- Path of the history file, `.rhiza/history`. -/
def historyPath : RelPath := ".rhiza/history"

/-- Legacy history location `.rhiza.history`, read by `_clean_orphaned_files`
for migration when the new location is absent. -/
def oldHistoryPath : RelPath := ".rhiza.history"

/-- Embedding of `_read_lock`: `None` when no lock file exists, otherwise the
stripped file content (note: a whitespace-only lock yields the empty string,
not `None`). -/
def readLock (target : FS) : Option String :=
  (lookupFS target lockFilePath).map pyStrip

/-- Embedding of `_write_lock`: writes `sha + "\n"` to the lock path. -/
def writeLock (target : FS) (sha : String) : FS :=
  setFile target lockFilePath (sha ++ "\n")

/-- Whether `p` names a regular file of the tree (`full.is_file()`). -/
def isFileIn (tree : FS) (p : RelPath) : Bool :=
  tree.any (fun kv => kv.1 == p)

/-- Whether `p` names a directory of the tree (`full.is_dir()`): some file
lives strictly below `p`. -/
def isDirIn (tree : FS) (p : RelPath) : Bool :=
  tree.any (fun kv => (p ++ "/").data.isPrefixOf kv.1.data)

/-- All files of the tree below directory `p` (`full.rglob("*")` keeping files). -/
def filesUnder (tree : FS) (p : RelPath) : List RelPath :=
  tree.filterMap (fun kv => if (p ++ "/").data.isPrefixOf kv.1.data then some kv.1 else none)

/-- Embedding of `_expand_paths`: each requested path expands to itself when it
is a file, to all files below it when it is a directory, and to nothing when
absent from the tree. -/
def expandPaths (tree : FS) (paths : List RelPath) : List RelPath :=
  (paths.map (fun p =>
    if isFileIn tree p then [p]
    else if isDirIn tree p then filesUnder tree p
    else [])).flatten

/-- Embedding of `_excluded_set`: the user exclude patterns expanded against
the upstream tree, plus the two always-excluded paths `.rhiza/template.yml`
and `.rhiza/history` (the lock path is NOT added). -/
def excludedSet (baseDir : FS) (excludedPaths : List RelPath) : List RelPath :=
  expandPaths baseDir excludedPaths ++ [templateConfigPath, historyPath]

/-- Embedding of the snapshot collection loops in `sync` (lines 422-426 and
439-442): walk the expanded include paths and record each file's content
unless its relative path is excluded. -/
def collectFiles (tree : FS) (includePaths : List RelPath) (excludes : List RelPath) : FS :=
  (expandPaths tree includePaths).foldl
    (fun m rel =>
      if rel ∈ excludes then m
      else
        match lookupFS tree rel with
        | some c => setFile m rel c
        | none => m)
    []

/-- Embedding of `_merge_file`.  The external `git merge-file` call is the
parameter `gm`, taking (local, base, upstream) contents and returning the
merged output together with the had-conflicts flag (`returncode > 0`).
The embedded branches are the ones of the source: no local file means the
upstream content wins with no conflict; no base with identical local and
upstream returns the upstream content; no base otherwise merges against the
empty string as ancestor. -/
def mergeFile (gm : Content → Content → Content → Content × Bool)
    (baseContent : Option Content) (upstreamContent : Content)
    (localContent : Option Content) : Content × Bool :=
  match localContent with
  | none => (upstreamContent, false)
  | some l =>
    match baseContent with
    | none =>
      if l = upstreamContent then (upstreamContent, false)
      else gm l "" upstreamContent
    | some b => gm l b upstreamContent

/-- Result of `_clone_at_sha` plus the base-snapshot read in `sync`
(lines 434-449): a tree on success; `gitExit` when a git step fails and
`_clone_at_sha` calls `sys.exit(1)` (a `SystemExit`, which `except Exception`
does not catch); `readError` for an `Exception` raised while reading the
snapshot, which the orchestrator catches and degrades to no base. -/
inductive BaseFetch where
  | ok (tree : FS)
  | gitExit
  | readError
deriving DecidableEq

/-- The externally visible effects of one sync run: target file writes in
order, conflicted paths, the lock update, the history update (list of
materialized paths), and the paths reported by diff mode. -/
structure Effects where
  writes : List (RelPath × Content)
  conflicts : List RelPath
  lockWrite : Option String
  historyWrite : Option (List RelPath)
  reported : List RelPath
deriving DecidableEq

/-- Result of one `sync` invocation: the early-exit return (lock equals
upstream HEAD), an abort via `sys.exit`, or a completed run with its effects. -/
inductive SyncResult where
  | earlyExit
  | aborted
  | done (eff : Effects)
deriving DecidableEq

/-- Target file writes performed by a run. -/
def writesOf : SyncResult → List (RelPath × Content)
  | .done e => e.writes
  | _ => []

/-- Lock update performed by a run. -/
def lockWriteOf : SyncResult → Option String
  | .done e => e.lockWrite
  | _ => none

/-- History update performed by a run. -/
def historyWriteOf : SyncResult → Option (List RelPath)
  | .done e => e.historyWrite
  | _ => none

/-- Conflicted paths reported by a run. -/
def conflictsOf : SyncResult → List RelPath
  | .done e => e.conflicts
  | _ => []

/-- Sorting of `upstream_files.items()` by relative path
(`sorted(upstream_files.items())`, keys are unique). -/
def sortByKey (files : List (RelPath × Content)) : List (RelPath × Content) :=
  List.insertionSort (fun a b => a.1 ≤ b.1) files

/-- Embedding of the per-file merge loop of `sync` (lines 494-528), returning
(writes, conflicts, materialized paths) in processing order.  A file is
skipped with no write when the local content equals the upstream content
(`[SKIP]`, outcome unchanged) or when a base content exists and equals the
upstream content (`[KEEP]`, outcome local-only) — the latter check does not
look at the local content at all.  Every other file is written with the
`_merge_file` result. -/
def mergeLoop (gm : Content → Content → Content → Content × Bool)
    (target baseFiles : FS) :
    List (RelPath × Content) → List (RelPath × Content) × List RelPath × List RelPath
  | [] => ([], [], [])
  | (rel, up) :: rest =>
    let r := mergeLoop gm target baseFiles rest
    if lookupFS target rel = some up then
      (r.1, r.2.1, rel :: r.2.2)
    else if lookupFS baseFiles rel = some up then
      (r.1, r.2.1, rel :: r.2.2)
    else
      let m := mergeFile gm (lookupFS baseFiles rel) up (lookupFS target rel)
      ((rel, m.1) :: r.1, if m.2 then rel :: r.2.1 else r.2.1, rel :: r.2.2)

/-- Single-character line boundaries recognised by Python `str.splitlines`
besides `\r` and `\r\n`. -/
def isLineBreak (c : Char) : Bool :=
  c = '\n' || c = '\x0b' || c = '\x0c' || c = '\x1c' || c = '\x1d' || c = '\x1e' ||
  c = '\x85' || c = ' ' || c = ' '

/-- Worker for `splitKeepends`: `acc` holds the current chunk reversed.
A `\r\n` pair is one boundary; a lone `\r` and each `isLineBreak` character
are single boundaries. -/
def splitKeepAux : List Char → List Char → List (List Char)
  | [], acc => if acc.isEmpty then [] else [acc.reverse]
  | c :: rest, acc =>
    if c = '\r' then
      match rest with
      | [] => [acc.reverse ++ ['\r']]
      | d :: rest2 =>
        if d = '\n' then (acc.reverse ++ ['\r', '\n']) :: splitKeepAux rest2 []
        else (acc.reverse ++ ['\r']) :: splitKeepAux (d :: rest2) []
    else if isLineBreak c then (acc.reverse ++ [c]) :: splitKeepAux rest []
    else splitKeepAux rest (c :: acc)

/-- Python `s.splitlines(keepends=True)` as a list of character chunks. -/
def splitKeepends (s : String) : List (List Char) :=
  splitKeepAux s.data []

/-- Embedding of `_diff_file`.  `difflib.unified_diff` yields an empty line
sequence exactly when its two inputs are equal, and the source returns `None`
exactly when that sequence is empty; the embedding keeps the two line
sequences as the payload of a non-`None` result in place of rendered hunks
(`relPath` only labels the rendered headers).  An absent local file is
diffed as the empty sequence. -/
def diffFile (upstreamContent : Content) (localContent : Option Content)
    (relPath : RelPath) : Option (List (List Char) × List (List Char)) :=
  let upLines := splitKeepends upstreamContent
  let localLines : List (List Char) :=
    match localContent with
    | none => []
    | some l => splitKeepends l
  if localLines = upLines then none else some (localLines, upLines)

/-- Embedding of `sync` (lines 360-551) after configuration loading and the
upstream clone, over: the strategy string, the target filesystem, the upstream
clone tree, the resolved include and exclude path lists, the upstream HEAD
commit `upstreamSha`, and the base-clone oracle `baseFetch`.  Mirrors the
source order: read lock, early exit on equality with the upstream HEAD,
build the exclusion set and the upstream snapshot, fetch the base snapshot
when the lock is a non-empty string (a whitespace-only lock reads as `""`,
which is falsy, so no base fetch), then dispatch on the strategy — any
strategy other than `"diff"` and `"overwrite"` falls through to the merge
branch. -/
def syncRun (gm : Content → Content → Content → Content × Bool)
    (strategy : String) (target upstreamTree : FS)
    (includePaths excludedPaths : List RelPath)
    (upstreamSha : String) (baseFetch : String → BaseFetch) : SyncResult :=
  let baseSha := readLock target
  if baseSha = some upstreamSha then .earlyExit
  else
    let excludes := excludedSet upstreamTree excludedPaths
    let upstreamFiles := collectFiles upstreamTree includePaths excludes
    let baseOpt : Option FS :=
      match baseSha with
      | none => some []
      | some s =>
        if s = "" then some []
        else
          match baseFetch s with
          | .ok t => some (collectFiles t includePaths excludes)
          | .gitExit => none
          | .readError => some []
    match baseOpt with
    | none => .aborted
    | some baseFiles =>
      if strategy = "diff" then
        .done ⟨[], [], none, none,
          (sortByKey upstreamFiles).filterMap
            (fun fu => (diffFile fu.2 (lookupFS target fu.1) fu.1).map (fun _ => fu.1))⟩
      else if strategy = "overwrite" then
        let sorted := sortByKey upstreamFiles
        .done ⟨sorted, [], some upstreamSha, some (sorted.map Prod.fst), []⟩
      else
        let r := mergeLoop gm target baseFiles (sortByKey upstreamFiles)
        .done ⟨r.1, r.2.1, some upstreamSha, some r.2.2, []⟩

/-- Apply a run's file writes to the target in order. -/
def applyWrites (target : FS) (ws : List (RelPath × Content)) : FS :=
  ws.foldl (fun fs pc => setFile fs pc.1 pc.2) target

/-- Content of the history file written by `_write_history_file`: comment
header lines followed by the sorted materialized paths, one per line (the
repository/branch header lines are configuration echoes and are elided). -/
def historyContent (paths : List RelPath) : Content :=
  "# Rhiza Template History\n# This file lists all files managed by the Rhiza template.\n#\n# Files under template control:\n"
  ++ (List.insertionSort (fun a b => a ≤ b) paths).foldl (fun s p => s ++ p ++ "\n") ""

/-- Apply all effects of a run to the target filesystem, in source order:
per-file writes, then the history file, then the lock file. -/
def applyEffects (target : FS) (r : SyncResult) : FS :=
  match r with
  | .earlyExit => target
  | .aborted => target
  | .done e =>
    let t1 := applyWrites target e.writes
    let t2 :=
      match e.historyWrite with
      | none => t1
      | some ps => setFile t1 historyPath (historyContent ps)
    match e.lockWrite with
    | none => t2
    | some sha => writeLock t2 sha

/-- Split a character list on newline characters (iterating over the lines of
a text file, as `for line in f` does before each line is stripped). -/
def splitNL : List Char → List Char → List (List Char)
  | [], acc => [acc.reverse]
  | c :: rest, acc =>
    if c = '\n' then acc.reverse :: splitNL rest []
    else splitNL rest (c :: acc)

/-- Python `line.startswith("#")`. -/
def startsWithHash (s : String) : Bool :=
  match s.data with
  | '#' :: _ => true
  | _ => false

/-- The previously tracked paths read by `_clean_orphaned_files` from a
history file's content: each line stripped, blank lines and comment lines
(starting with `#`) skipped. -/
def parseHistoryLines (content : Content) : List RelPath :=
  (splitNL content.data []).filterMap (fun lcs =>
    let l := String.mk (stripChars lcs)
    if l = "" then none
    else if startsWithHash l then none
    else some l)

/-- The deletions performed by `_clean_orphaned_files` given a history file
content: the orphaned set (previously tracked minus currently materialized,
deduplicated, visited in sorted order), restricted to paths that exist on the
target; each such path is unlinked.  No path receives special protection. -/
def orphanedDeletions (target : FS) (materialized : List RelPath)
    (content : Content) : List RelPath :=
  (List.insertionSort (fun a b => a ≤ b) (parseHistoryLines content).dedup).filter
    (fun p => !(decide (p ∈ materialized)) && (lookupFS target p).isSome)

/-- Embedding of `_clean_orphaned_files` as the list of paths it deletes:
prefer the history file at `.rhiza/history`, fall back to the legacy
`.rhiza.history`, do nothing when neither exists. -/
def cleanOrphanedFiles (target : FS) (materialized : List RelPath) : List RelPath :=
  match lookupFS target historyPath with
  | some content => orphanedDeletions target materialized content
  | none =>
    match lookupFS target oldHistoryPath with
    | some content => orphanedDeletions target materialized content
    | none => []

/-- Outcome of invoking the sync operation through the command line: either
the sync function ran (after the upstream clone, i.e. network I/O happened),
or argument validation rejected the invocation with a non-zero exit code
before any network access. -/
inductive CliOutcome where
  | ran (r : SyncResult)
  | usageError (exitCode : Nat)
deriving DecidableEq

/-- Modelled from the spec: the CLI wiring of the sync command is absent from
the source tree (`cli.py` predates the sync command; only its tests invoke
it, expecting a non-zero exit for an invalid strategy).  Per the spec, the
strategy selector accepts exactly the three values `merge`, `overwrite` and
`diff`, and an invalid value fails fast with a non-zero exit before any
network I/O and performs no writes. -/
def cliSync (gm : Content → Content → Content → Content × Bool)
    (strategy : String) (target upstreamTree : FS)
    (includePaths excludedPaths : List RelPath)
    (upstreamSha : String) (baseFetch : String → BaseFetch) : CliOutcome :=
  if strategy = "merge" ∨ strategy = "overwrite" ∨ strategy = "diff" then
    .ran (syncRun gm strategy target upstreamTree includePaths excludedPaths
      upstreamSha baseFetch)
  else .usageError 2

/-- Target writes performed by a CLI invocation. -/
def cliWritesOf : CliOutcome → List (RelPath × Content)
  | .ran r => writesOf r
  | .usageError _ => []

/-- Whether the invocation reached the upstream clone (network I/O). -/
def cliNetworkUsed : CliOutcome → Bool
  | .ran _ => true
  | .usageError _ => false

theorem lookupFS_setFile_self (fs : FS) (p : RelPath) (c : Content) :
    lookupFS (setFile fs p c) p = some c := by
  induction fs with
  | nil => simp [setFile, lookupFS]
  | cons kv rest ih =>
    obtain ⟨k, v⟩ := kv
    by_cases h : k = p
    · simp [setFile, h, lookupFS]
    · simp [setFile, h, lookupFS, ih]

theorem lookupFS_setFile_ne (fs : FS) (p q : RelPath) (c : Content) (h : q ≠ p) :
    lookupFS (setFile fs p c) q = lookupFS fs q := by
  have hpq : ¬ p = q := fun hh => h hh.symm
  induction fs with
  | nil => simp [setFile, lookupFS, hpq]
  | cons kv rest ih =>
    obtain ⟨k, v⟩ := kv
    by_cases hk : k = p
    · subst hk
      simp [setFile, lookupFS, hpq]
    · simp only [setFile, if_neg hk, lookupFS]
      by_cases hq : k = q
      · simp [hq]
      · simp [hq, ih]

theorem stripChars_append_newline (cs : List Char) :
    stripChars (cs ++ ['\n']) = stripChars cs := by
  simp [stripChars, List.dropWhile, isPyWS]

theorem pyStrip_append_newline (s : String) (h : pyStrip s = s) :
    pyStrip (s ++ "\n") = s := by
  have hdata : (s ++ "\n").data = s.data ++ ['\n'] := by
    simp [String.data_append]
  calc pyStrip (s ++ "\n") = String.mk (stripChars (s.data ++ ['\n'])) := by
        simp [pyStrip, hdata]
    _ = String.mk (stripChars s.data) := by rw [stripChars_append_newline]
    _ = s := h

theorem mem_keys_setFile (m : FS) (k : RelPath) (v : Content) (p : RelPath)
    (h : p ∈ (setFile m k v).map Prod.fst) : p = k ∨ p ∈ m.map Prod.fst := by
  induction m with
  | nil => simpa [setFile] using h
  | cons kv rest ih =>
    obtain ⟨k0, v0⟩ := kv
    by_cases hk : k0 = k
    · subst hk
      simpa [setFile] using h
    · simp only [setFile, if_neg hk, List.map_cons, List.mem_cons] at h
      rcases h with h | h
      · refine Or.inr ?thisKey
        simp only [List.map_cons, List.mem_cons]
        exact Or.inl h
      · rcases ih h with h1 | h1
        · exact Or.inl h1
        · refine Or.inr ?restKey
          simp only [List.map_cons, List.mem_cons]
          exact Or.inr h1

theorem mem_keys_collectFiles (tree : FS) (includePaths excludes : List RelPath)
    (p : RelPath) (h : p ∈ (collectFiles tree includePaths excludes).map Prod.fst) :
    p ∉ excludes := by
  have key : ∀ (l : List RelPath) (m : FS),
      (∀ q ∈ m.map Prod.fst, q ∉ excludes) →
      ∀ q ∈ (l.foldl
        (fun m rel =>
          if rel ∈ excludes then m
          else
            match lookupFS tree rel with
            | some c => setFile m rel c
            | none => m) m).map Prod.fst, q ∉ excludes := by
    intro l
    induction l with
    | nil => intro m hm q hq; exact hm q hq
    | cons rel rest ih =>
      intro m hm q hq
      simp only [List.foldl_cons] at hq
      by_cases hrel : rel ∈ excludes
      · exact ih m hm q (by simpa [hrel] using hq)
      · have hstep : ∀ r ∈ (match lookupFS tree rel with
            | some c => setFile m rel c
            | none => m).map Prod.fst, r ∉ excludes := by
          intro r hr
          cases hc : lookupFS tree rel with
          | some c =>
            rw [hc] at hr
            rcases mem_keys_setFile m rel c r hr with h1 | h1
            · subst h1; exact hrel
            · exact hm r h1
          | none =>
            rw [hc] at hr
            exact hm r hr
        exact ih _ hstep q (by simpa [hrel] using hq)
  exact key _ [] (by simp) p h

theorem splitKeepAux_flatten_le :
    ∀ (n : Nat) (cs acc : List Char), cs.length ≤ n →
      (splitKeepAux cs acc).flatten = acc.reverse ++ cs := by
  intro n
  induction n with
  | zero =>
    intro cs acc h
    have hnil : cs = [] := List.eq_nil_of_length_eq_zero (Nat.le_zero.mp h)
    subst hnil
    by_cases ha : acc = []
    · subst ha; simp [splitKeepAux]
    · simp [splitKeepAux, ha]
  | succ n ih =>
    intro cs acc h
    rcases cs with _ | ⟨c, rest⟩
    · by_cases ha : acc = []
      · subst ha; simp [splitKeepAux]
      · simp [splitKeepAux, ha]
    · by_cases hc : c = '\r'
      · subst hc
        rcases rest with _ | ⟨d, rest2⟩
        · simp [splitKeepAux]
        · by_cases hd : d = '\n'
          · subst hd
            have hlen : rest2.length ≤ n := by
              simp only [List.length_cons] at h; omega
            simp [splitKeepAux, ih rest2 [] hlen]
          · have hlen : (d :: rest2).length ≤ n := by
              simp only [List.length_cons] at h ⊢; omega
            simp [splitKeepAux, hd, ih (d :: rest2) [] hlen]
      · have hlen : rest.length ≤ n := by
          simp only [List.length_cons] at h; omega
        by_cases hb : isLineBreak c
        · rw [splitKeepAux.eq_def]
          simp [hc, hb, ih rest [] hlen]
        · rw [splitKeepAux.eq_def]
          simp [hc, hb, ih rest (c :: acc) hlen]

theorem splitKeepends_flatten (s : String) :
    (splitKeepends s).flatten = s.data := by
  simpa using splitKeepAux_flatten_le s.data.length s.data [] (Nat.le_refl _)

theorem splitKeepends_injective (s t : String)
    (h : splitKeepends s = splitKeepends t) : s = t := by
  have hd : s.data = t.data := by
    rw [← splitKeepends_flatten s, ← splitKeepends_flatten t, h]
  exact String.ext hd

theorem splitKeepends_eq_nil_iff (s : String) :
    splitKeepends s = [] ↔ s = "" := by
  constructor
  · intro h
    have hd : s.data = [] := by
      rw [← splitKeepends_flatten s, h]; simp
    apply String.ext; simpa using hd
  · intro h; subst h; decide

theorem mergeLoop_writes_keys_sublist
    (gm : Content → Content → Content → Content × Bool)
    (target baseFiles : FS) (fs : List (RelPath × Content)) :
    ((mergeLoop gm target baseFiles fs).1.map Prod.fst).Sublist (fs.map Prod.fst) := by
  induction fs with
  | nil => simp [mergeLoop]
  | cons fu rest ih =>
    obtain ⟨rel, up⟩ := fu
    simp only [mergeLoop]
    by_cases h1 : lookupFS target rel = some up
    · simpa [h1] using ih.cons rel
    · by_cases h2 : lookupFS baseFiles rel = some up
      · simpa [h1, h2] using ih.cons rel
      · simpa [h1, h2] using ih.cons₂ rel

theorem mergeLoop_conflicts_sublist
    (gm : Content → Content → Content → Content × Bool)
    (target baseFiles : FS) (fs : List (RelPath × Content)) :
    ((mergeLoop gm target baseFiles fs).2.1).Sublist (fs.map Prod.fst) := by
  induction fs with
  | nil => simp [mergeLoop]
  | cons fu rest ih =>
    obtain ⟨rel, up⟩ := fu
    simp only [mergeLoop]
    by_cases h1 : lookupFS target rel = some up
    · simpa [h1] using ih.cons rel
    · by_cases h2 : lookupFS baseFiles rel = some up
      · simpa [h1, h2] using ih.cons rel
      · by_cases hm : (mergeFile gm (lookupFS baseFiles rel) up (lookupFS target rel)).2
        · simpa [h1, h2, hm] using ih.cons₂ rel
        · simpa [h1, h2, hm] using ih.cons rel

theorem countP_keys_eq_zero (l : List (RelPath × Content)) (rel : RelPath)
    (h : rel ∉ l.map Prod.fst) :
    l.countP (fun w => w.1 == rel) = 0 := by
  refine List.countP_eq_zero.mpr ?noMatch
  intro a ha
  simp only [beq_iff_eq]
  intro hrel
  exact h (by simpa [hrel] using List.mem_map_of_mem Prod.fst ha)

theorem applyWrites_nil (t : FS) : applyWrites t [] = t := rfl

theorem applyWrites_cons (t : FS) (k : RelPath) (v : Content)
    (ws : List (RelPath × Content)) :
    applyWrites t ((k, v) :: ws) = applyWrites (setFile t k v) ws := rfl

theorem lookupFS_applyWrites_not_mem (t : FS) (ws : List (RelPath × Content))
    (p : RelPath) (h : p ∉ ws.map Prod.fst) :
    lookupFS (applyWrites t ws) p = lookupFS t p := by
  induction ws generalizing t with
  | nil => rfl
  | cons w rest ih =>
    obtain ⟨k, v⟩ := w
    simp only [List.map_cons, List.mem_cons, not_or] at h
    rw [applyWrites_cons, ih (setFile t k v) h.2,
      lookupFS_setFile_ne t k p v h.1]

theorem lookupFS_applyWrites_mem (t : FS) (ws : List (RelPath × Content))
    (rel : RelPath) (c : Content) (hnd : (ws.map Prod.fst).Nodup)
    (hm : (rel, c) ∈ ws) :
    lookupFS (applyWrites t ws) rel = some c := by
  induction ws generalizing t with
  | nil => cases hm
  | cons w rest ih =>
    obtain ⟨k, v⟩ := w
    simp only [List.map_cons, List.nodup_cons] at hnd
    rcases List.mem_cons.mp hm with he | hrest
    · obtain ⟨hk, hv⟩ := Prod.mk.injEq .. ▸ he
      subst hk; subst hv
      rw [applyWrites_cons,
        lookupFS_applyWrites_not_mem (setFile t rel c) rest rel hnd.1,
        lookupFS_setFile_self]
    · rw [applyWrites_cons]
      exact ih (setFile t k v) hnd.2 hrest

theorem mem_writes_mergeLoop (gm : Content → Content → Content → Content × Bool)
    (target baseFiles : FS) (fs : List (RelPath × Content)) (rel : RelPath)
    (u : Content) (hmem : (rel, u) ∈ fs)
    (hlocal : lookupFS target rel = none)
    (hbase : lookupFS baseFiles rel ≠ some u) :
    (rel, u) ∈ (mergeLoop gm target baseFiles fs).1 := by
  induction fs with
  | nil => cases hmem
  | cons fu rest ih =>
    obtain ⟨k, v⟩ := fu
    rcases List.mem_cons.mp hmem with he | hrest
    · obtain ⟨hk, hv⟩ := Prod.mk.injEq .. ▸ he
      subst hk; subst hv
      have h1 : ¬ (lookupFS target rel = some u) := by simp [hlocal]
      have hm : mergeFile gm (lookupFS baseFiles rel) u (lookupFS target rel)
          = (u, false) := by rw [hlocal]; rfl
      simp only [mergeLoop, if_neg h1, if_neg hbase]
      simp [hm]
    · have hr := ih hrest
      simp only [mergeLoop]
      by_cases h1 : lookupFS target k = some v
      · simpa [h1] using hr
      · by_cases h2 : lookupFS baseFiles k = some v
        · simpa [h1, h2] using hr
        · simp only [if_neg h1, if_neg h2]
          exact List.mem_cons_of_mem _ hr

theorem not_mem_conflicts_mergeLoop
    (gm : Content → Content → Content → Content × Bool)
    (target baseFiles : FS) (fs : List (RelPath × Content)) (rel : RelPath)
    (u : Content) (hnd : (fs.map Prod.fst).Nodup) (hmem : (rel, u) ∈ fs)
    (hlocal : lookupFS target rel = none)
    (hbase : lookupFS baseFiles rel ≠ some u) :
    rel ∉ (mergeLoop gm target baseFiles fs).2.1 := by
  induction fs with
  | nil => simp [mergeLoop]
  | cons fu rest ih =>
    obtain ⟨k, v⟩ := fu
    simp only [List.map_cons, List.nodup_cons] at hnd
    rcases List.mem_cons.mp hmem with he | hrest
    · obtain ⟨hk, hv⟩ := Prod.mk.injEq .. ▸ he
      subst hk; subst hv
      have h1 : ¬ (lookupFS target rel = some u) := by simp [hlocal]
      have hm : mergeFile gm (lookupFS baseFiles rel) u (lookupFS target rel)
          = (u, false) := by rw [hlocal]; rfl
      simp only [mergeLoop, if_neg h1, if_neg hbase, hm]
      intro hc
      exact hnd.1 ((mergeLoop_conflicts_sublist gm target baseFiles rest).subset
        (by simpa using hc))
    · have hkr : ¬ k = rel := by
        intro he2
        exact hnd.1 (he2 ▸ List.mem_map_of_mem Prod.fst hrest)
      have hr := ih hnd.2 hrest
      simp only [mergeLoop]
      by_cases h1 : lookupFS target k = some v
      · simpa [h1] using hr
      · by_cases h2 : lookupFS baseFiles k = some v
        · simpa [h1, h2] using hr
        · simp only [if_neg h1, if_neg h2]
          by_cases hcf : (mergeFile gm (lookupFS baseFiles k) v (lookupFS target k)).2
          · simp only [hcf, if_true]
            intro hc
            rcases List.mem_cons.mp hc with he2 | he2
            · exact hkr he2.symm
            · exact hr he2
          · simpa [hcf] using hr

theorem mergeLoop_write_count (gm : Content → Content → Content → Content × Bool)
    (target baseFiles : FS) (fs : List (RelPath × Content)) (rel : RelPath)
    (u : Content) (hnd : (fs.map Prod.fst).Nodup) (hmem : (rel, u) ∈ fs) :
    ((mergeLoop gm target baseFiles fs).1.countP (fun w => w.1 == rel)) =
      if lookupFS target rel = some u ∨ lookupFS baseFiles rel = some u then 0 else 1 := by
  induction fs with
  | nil => cases hmem
  | cons fu rest ih =>
    obtain ⟨k, v⟩ := fu
    simp only [List.map_cons, List.nodup_cons] at hnd
    rcases List.mem_cons.mp hmem with he | hrest
    · obtain ⟨hk, hv⟩ := Prod.mk.injEq .. ▸ he
      subst hk; subst hv
      have hzero : ((mergeLoop gm target baseFiles rest).1.countP
          (fun w => w.1 == rel)) = 0 := by
        refine countP_keys_eq_zero _ rel (fun hc => hnd.1 ?memRest)
        exact (mergeLoop_writes_keys_sublist gm target baseFiles rest).subset hc
      simp only [mergeLoop]
      by_cases h1 : lookupFS target rel = some u
      · simp [h1, hzero]
      · by_cases h2 : lookupFS baseFiles rel = some u
        · simp [h1, h2, hzero]
        · simp [h1, h2, List.countP_cons, hzero]
    · have hkr : ¬ k = rel := by
        intro he2
        exact hnd.1 (he2 ▸ List.mem_map_of_mem Prod.fst hrest)
      have hr := ih hnd.2 hrest
      simp only [mergeLoop]
      by_cases h1 : lookupFS target k = some v
      · simpa [h1] using hr
      · by_cases h2 : lookupFS baseFiles k = some v
        · simpa [h1, h2] using hr
        · simp only [if_neg h1, if_neg h2]
          simpa [List.countP_cons, hkr] using hr

theorem mergeLoop_materialized (gm : Content → Content → Content → Content × Bool)
    (target baseFiles : FS) (fs : List (RelPath × Content)) :
    (mergeLoop gm target baseFiles fs).2.2 = fs.map Prod.fst := by
  induction fs with
  | nil => rfl
  | cons fu rest ih =>
    obtain ⟨rel, up⟩ := fu
    simp only [mergeLoop]
    by_cases h1 : lookupFS target rel = some up
    · simp [h1, ih]
    · by_cases h2 : lookupFS baseFiles rel = some up
      · simp [h1, h2, ih]
      · simp [h1, h2, ih]

theorem applyEffects_no_effects (target : FS) (r : SyncResult)
    (hw : writesOf r = []) (hl : lockWriteOf r = none)
    (hh : historyWriteOf r = none) :
    applyEffects target r = target := by
  cases r with
  | earlyExit => rfl
  | aborted => rfl
  | done e =>
    simp only [writesOf] at hw
    simp only [lockWriteOf] at hl
    simp only [historyWriteOf] at hh
    simp [applyEffects, hw, hl, hh, applyWrites]

/-- Claim C1, counterexample: a file that exists upstream, is absent locally,
and whose base content equals the upstream content is NOT written by a merge
sync — the `base == upstream` skip fires before the local-is-None rule, so a
locally deleted file is not resurrected, contradicting the claim that the
result is written with priority for the local-is-None rule. -/
theorem deleted_local_not_resurrected_cex :
    lookupFS [(".rhiza/template.lock", "old\n")] "a.txt" = none ∧
    ("a.txt", "x") ∈ collectFiles [("a.txt", "x")] ["a.txt"]
      (excludedSet [("a.txt", "x")] []) ∧
    writesOf (syncRun (fun _ _ u => (u, false)) "merge"
      [(".rhiza/template.lock", "old\n")] [("a.txt", "x")] ["a.txt"] []
      "new" (fun _ => .ok [("a.txt", "x")])) = [] ∧
    lookupFS (applyEffects [(".rhiza/template.lock", "old\n")]
      (syncRun (fun _ _ u => (u, false)) "merge"
        [(".rhiza/template.lock", "old\n")] [("a.txt", "x")] ["a.txt"] []
        "new" (fun _ => .ok [("a.txt", "x")]))) "a.txt" = none := by decide

/-- Claim C1, amended: for every file in the driving set whose local content
is absent and whose base content is NOT equal to the upstream content, the
merge loop writes exactly the upstream content with no conflict, and the
target then holds the upstream content; when a base content exists and equals
the upstream content the file is skipped unwritten (the base-equals-upstream
rule has priority over the local-is-None rule, so a locally deleted file is
not resurrected). -/
theorem new_from_upstream_written (gm : Content → Content → Content → Content × Bool)
    (target baseFiles : FS) (files : List (RelPath × Content)) (rel : RelPath)
    (u : Content) (hnd : (files.map Prod.fst).Nodup) (hmem : (rel, u) ∈ files)
    (hlocal : lookupFS target rel = none)
    (hbase : lookupFS baseFiles rel ≠ some u) :
    (rel, u) ∈ (mergeLoop gm target baseFiles files).1 ∧
    rel ∉ (mergeLoop gm target baseFiles files).2.1 ∧
    lookupFS (applyWrites target (mergeLoop gm target baseFiles files).1) rel = some u := by
  refine ⟨mem_writes_mergeLoop gm target baseFiles files rel u hmem hlocal hbase,
    not_mem_conflicts_mergeLoop gm target baseFiles files rel u hnd hmem hlocal hbase,
    ?afterApply⟩
  have hndw : ((mergeLoop gm target baseFiles files).1.map Prod.fst).Nodup :=
    (mergeLoop_writes_keys_sublist gm target baseFiles files).nodup hnd
  exact lookupFS_applyWrites_mem target _ rel u hndw
    (mem_writes_mergeLoop gm target baseFiles files rel u hmem hlocal hbase)

/-- Witness for `new_from_upstream_written` at a concrete input. -/
theorem new_from_upstream_written_witness :
    ("a.txt", "x") ∈ (mergeLoop (fun _ _ u => (u, false)) [] [] [("a.txt", "x")]).1 ∧
    "a.txt" ∉ (mergeLoop (fun _ _ u => (u, false)) [] [] [("a.txt", "x")]).2.1 ∧
    lookupFS (applyWrites []
      (mergeLoop (fun _ _ u => (u, false)) [] [] [("a.txt", "x")]).1) "a.txt" = some "x" :=
  new_from_upstream_written (fun _ _ u => (u, false)) [] [] [("a.txt", "x")] "a.txt" "x"
    (by decide) (by decide) (by decide) (by decide)

/-- Claim C2, counterexample: the lock path `.rhiza/template.lock` is not one
of the always-excluded paths, so it appears as a key of the collected
snapshot when the upstream tree carries it and the include set covers it. -/
theorem lock_path_in_snapshot_cex :
    ".rhiza/template.lock" ∈
      (collectFiles [(".rhiza/template.lock", "sha\n")] [".rhiza"]
        (excludedSet [(".rhiza/template.lock", "sha\n")] [])).map Prod.fst := by decide

/-- Claim C2, amended: for every upstream tree and every user include/exclude
configuration, the collected snapshot never contains the template
configuration path `.rhiza/template.yml` or the history path `.rhiza/history`
as keys (the lock path `.rhiza/template.lock` is not always excluded). -/
theorem snapshot_excludes_config_and_history (tree : FS)
    (includePaths excludedPaths : List RelPath) :
    templateConfigPath ∉
      (collectFiles tree includePaths (excludedSet tree excludedPaths)).map Prod.fst ∧
    historyPath ∉
      (collectFiles tree includePaths (excludedSet tree excludedPaths)).map Prod.fst := by
  constructor
  · intro h
    exact (mem_keys_collectFiles tree includePaths _ _ h) (by simp [excludedSet])
  · intro h
    exact (mem_keys_collectFiles tree includePaths _ _ h) (by simp [excludedSet])

/-- Claim C3, counterexample: a local-only file (base equals upstream, local
differs from upstream) produces NO write at all — the merge loop skips it
with `continue` — contradicting the claim that every outcome other than
unchanged performs exactly one write. -/
theorem local_only_no_write_cex :
    lookupFS [(".rhiza/template.lock", "old\n"), ("a.txt", "mine")] "a.txt" = some "mine" ∧
    ¬ ("mine" = "x") ∧
    writesOf (syncRun (fun _ _ u => (u, false)) "merge"
      [(".rhiza/template.lock", "old\n"), ("a.txt", "mine")]
      [("a.txt", "x")] ["a.txt"] [] "new" (fun _ => .ok [("a.txt", "x")])) = [] := by decide

/-- Claim C3, amended: every file of the driving set produces exactly one
outcome (appears exactly once in the materialized list), and the number of
writes for it is zero when the outcome is unchanged (local equals upstream)
OR local-only (a base content exists and equals upstream) and exactly one
otherwise. -/
theorem merge_write_count (gm : Content → Content → Content → Content × Bool)
    (target baseFiles : FS) (files : List (RelPath × Content)) (rel : RelPath)
    (u : Content) (hnd : (files.map Prod.fst).Nodup) (hmem : (rel, u) ∈ files) :
    (mergeLoop gm target baseFiles files).2.2.count rel = 1 ∧
    ((mergeLoop gm target baseFiles files).1.countP (fun w => w.1 == rel)) =
      if lookupFS target rel = some u ∨ lookupFS baseFiles rel = some u then 0 else 1 := by
  constructor
  · rw [mergeLoop_materialized]
    exact List.count_eq_one_of_mem hnd (List.mem_map_of_mem Prod.fst hmem)
  · exact mergeLoop_write_count gm target baseFiles files rel u hnd hmem

/-- Witness for `merge_write_count` at a concrete local-only input. -/
theorem merge_write_count_witness :
    (mergeLoop (fun _ _ u => (u, false)) [("a.txt", "mine")] [("a.txt", "x")]
      [("a.txt", "x")]).2.2.count "a.txt" = 1 ∧
    ((mergeLoop (fun _ _ u => (u, false)) [("a.txt", "mine")] [("a.txt", "x")]
      [("a.txt", "x")]).1.countP (fun w => w.1 == "a.txt")) =
      if lookupFS [("a.txt", "mine")] "a.txt" = some "x" ∨
          lookupFS [("a.txt", "x")] "a.txt" = some "x" then 0 else 1 :=
  merge_write_count (fun _ _ u => (u, false)) [("a.txt", "mine")] [("a.txt", "x")]
    [("a.txt", "x")] "a.txt" "x" (by decide) (by decide)

/-- Claim C4: at a concrete input whose recorded base commit is no longer
resolvable (the git step fails, so `_clone_at_sha` calls `sys.exit(1)`), the
sync run ABORTS with no writes and no lock update instead of degrading to
no-base behavior — while the same input with an `Exception`-type snapshot
read failure does degrade and completes.  `SystemExit` escapes the
orchestrator's `except Exception` fallback, so the code contradicts its own
fallback branch and the spec's graceful-degradation requirement. -/
theorem base_unavailable_aborts :
    syncRun (fun _ _ u => (u, false)) "merge"
      [(".rhiza/template.lock", "old\n")] [("a.txt", "x")] ["a.txt"] []
      "new" (fun _ => .gitExit) = .aborted ∧
    writesOf (syncRun (fun _ _ u => (u, false)) "merge"
      [(".rhiza/template.lock", "old\n")] [("a.txt", "x")] ["a.txt"] []
      "new" (fun _ => .gitExit)) = [] ∧
    lockWriteOf (syncRun (fun _ _ u => (u, false)) "merge"
      [(".rhiza/template.lock", "old\n")] [("a.txt", "x")] ["a.txt"] []
      "new" (fun _ => .gitExit)) = none ∧
    syncRun (fun _ _ u => (u, false)) "merge"
      [(".rhiza/template.lock", "old\n")] [("a.txt", "x")] ["a.txt"] []
      "new" (fun _ => .readError)
      = .done ⟨[("a.txt", "x")], [], some "new", some ["a.txt"], []⟩ := by decide

/-- Claim C5: when the stored (stripped) lock commit equals the upstream HEAD
commit, the sync run early-exits with zero writes and no lock or history
update; and after any run that wrote the lock with the upstream HEAD sha,
a second run with an unchanged upstream also early-exits — idempotence. -/
theorem sync_early_exit_idempotent (gm : Content → Content → Content → Content × Bool)
    (strategy : String) (target upstreamTree : FS)
    (includePaths excludedPaths : List RelPath) (sha : String)
    (bf : String → BaseFetch) (hsha : pyStrip sha = sha) :
    (readLock target = some sha →
      syncRun gm strategy target upstreamTree includePaths excludedPaths sha bf
        = .earlyExit) ∧
    (∀ t2 : FS,
      syncRun gm strategy (writeLock t2 sha) upstreamTree includePaths excludedPaths sha bf
        = .earlyExit) ∧
    writesOf SyncResult.earlyExit = [] ∧
    lockWriteOf SyncResult.earlyExit = none ∧
    historyWriteOf SyncResult.earlyExit = none := by
  refine ⟨?first, ?second, rfl, rfl, rfl⟩
  · intro h
    simp [syncRun, h]
  · intro t2
    have hread : readLock (writeLock t2 sha) = some sha := by
      simp [readLock, writeLock, lookupFS_setFile_self, pyStrip_append_newline sha hsha]
    simp [syncRun, hread]

/-- Witness for `sync_early_exit_idempotent` at a concrete input. -/
theorem sync_early_exit_idempotent_witness :
    (readLock [(".rhiza/template.lock", "abc\n")] = some "abc" →
      syncRun (fun _ _ u => (u, false)) "merge" [(".rhiza/template.lock", "abc\n")]
        [("a.txt", "x")] ["a.txt"] [] "abc" (fun _ => .gitExit) = .earlyExit) ∧
    (∀ t2 : FS,
      syncRun (fun _ _ u => (u, false)) "merge" (writeLock t2 "abc")
        [("a.txt", "x")] ["a.txt"] [] "abc" (fun _ => .gitExit) = .earlyExit) ∧
    writesOf SyncResult.earlyExit = [] ∧
    lockWriteOf SyncResult.earlyExit = none ∧
    historyWriteOf SyncResult.earlyExit = none :=
  sync_early_exit_idempotent (fun _ _ u => (u, false)) "merge"
    [(".rhiza/template.lock", "abc\n")] [("a.txt", "x")] ["a.txt"] [] "abc"
    (fun _ => .gitExit) (by decide)

/-- Claim C6: a diff-strategy run performs no target writes, no lock update
and no history update, so applying its effects leaves every target file and
the lock store's read result unchanged, whatever differences are found. -/
theorem diff_strategy_pure (gm : Content → Content → Content → Content × Bool)
    (target upstreamTree : FS) (includePaths excludedPaths : List RelPath)
    (sha : String) (bf : String → BaseFetch) :
    writesOf (syncRun gm "diff" target upstreamTree includePaths excludedPaths sha bf) = [] ∧
    lockWriteOf (syncRun gm "diff" target upstreamTree includePaths excludedPaths sha bf) = none ∧
    historyWriteOf (syncRun gm "diff" target upstreamTree includePaths excludedPaths sha bf) = none ∧
    applyEffects target
      (syncRun gm "diff" target upstreamTree includePaths excludedPaths sha bf) = target ∧
    readLock (applyEffects target
      (syncRun gm "diff" target upstreamTree includePaths excludedPaths sha bf))
      = readLock target := by
  have key :
      writesOf (syncRun gm "diff" target upstreamTree includePaths excludedPaths sha bf) = [] ∧
      lockWriteOf (syncRun gm "diff" target upstreamTree includePaths excludedPaths sha bf) = none ∧
      historyWriteOf (syncRun gm "diff" target upstreamTree includePaths excludedPaths sha bf) = none := by
    simp only [syncRun]
    split
    · exact ⟨rfl, rfl, rfl⟩
    · split
      · exact ⟨rfl, rfl, rfl⟩
      · simp [writesOf, lockWriteOf, historyWriteOf]
  have happ := applyEffects_no_effects target _ key.1 key.2.1 key.2.2
  exact ⟨key.1, key.2.1, key.2.2, happ, by rw [happ]⟩

/-- Claim C7, counterexample: the template configuration path
`.rhiza/template.yml` IS deleted by orphan cleanup when it appears in the
previous history record and not in the currently materialized set — the code
has no protection for it, contradicting the claim that it is never deleted. -/
theorem template_config_orphan_deleted_cex :
    ".rhiza/template.yml" ∈
      cleanOrphanedFiles
        [(".rhiza/history", "# h\n.rhiza/template.yml\n"),
         (".rhiza/template.yml", "cfg")] [] := by decide

/-- Claim C7, amended: orphan cleanup deletes exactly the paths that appear
in the previous history record, are absent from the currently materialized
set, and exist on the target filesystem — with no protected exception for
the template configuration path. -/
theorem orphan_cleanup_deletes_exactly (target : FS) (materialized : List RelPath)
    (content : Content) (p : RelPath)
    (hhist : lookupFS target historyPath = some content) :
    p ∈ cleanOrphanedFiles target materialized ↔
      (p ∈ parseHistoryLines content ∧ p ∉ materialized ∧
        (lookupFS target p).isSome) := by
  simp only [cleanOrphanedFiles, hhist]
  simp only [orphanedDeletions, List.mem_filter]
  constructor
  · rintro ⟨hm, hf⟩
    have hm2 : p ∈ (parseHistoryLines content).dedup :=
      ((List.perm_insertionSort _ _).mem_iff).mp hm
    simp only [Bool.and_eq_true, Bool.not_eq_eq_eq_not, decide_eq_true_eq] at hf
    refine ⟨List.mem_dedup.mp hm2, ?notMat, hf.2⟩
    intro hmat
    simp [hmat] at hf
  · rintro ⟨h1, h2, h3⟩
    refine ⟨((List.perm_insertionSort _ _).mem_iff).mpr (List.mem_dedup.mpr h1), ?cond⟩
    simp [h2, h3]

/-- Witness for `orphan_cleanup_deletes_exactly` at a concrete input. -/
theorem orphan_cleanup_deletes_exactly_witness :
    "a.txt" ∈ cleanOrphanedFiles [(".rhiza/history", "a.txt\n"), ("a.txt", "z")] [] ↔
      ("a.txt" ∈ parseHistoryLines "a.txt\n" ∧ "a.txt" ∉ ([] : List RelPath) ∧
        (lookupFS [(".rhiza/history", "a.txt\n"), ("a.txt", "z")] "a.txt").isSome) :=
  orphan_cleanup_deletes_exactly [(".rhiza/history", "a.txt\n"), ("a.txt", "z")] []
    "a.txt\n" "a.txt" (by decide)

/-- Claim C8: for every strategy value outside `{merge, overwrite, diff}`,
invoking the sync operation through the CLI fails with the non-zero usage
exit code, performs no writes and no network I/O (spec-modelled CLI wiring,
see `cliSync`). -/
theorem invalid_strategy_fails_fast (gm : Content → Content → Content → Content × Bool)
    (strategy : String) (target upstreamTree : FS)
    (includePaths excludedPaths : List RelPath) (sha : String)
    (bf : String → BaseFetch)
    (h1 : strategy ≠ "merge") (h2 : strategy ≠ "overwrite") (h3 : strategy ≠ "diff") :
    cliSync gm strategy target upstreamTree includePaths excludedPaths sha bf
      = .usageError 2 ∧
    cliWritesOf (cliSync gm strategy target upstreamTree includePaths excludedPaths sha bf)
      = [] ∧
    cliNetworkUsed (cliSync gm strategy target upstreamTree includePaths excludedPaths sha bf)
      = false ∧
    (2 : Nat) ≠ 0 := by
  have hcond : ¬ (strategy = "merge" ∨ strategy = "overwrite" ∨ strategy = "diff") := by
    rintro (h | h | h)
    · exact h1 h
    · exact h2 h
    · exact h3 h
  simp [cliSync, hcond, cliWritesOf, cliNetworkUsed]

/-- Witness for `invalid_strategy_fails_fast` at a concrete input. -/
theorem invalid_strategy_fails_fast_witness :
    cliSync (fun _ _ u => (u, false)) "bogus" [] [("a.txt", "x")] ["a.txt"] []
      "new" (fun _ => .gitExit) = .usageError 2 ∧
    cliWritesOf (cliSync (fun _ _ u => (u, false)) "bogus" [] [("a.txt", "x")] ["a.txt"] []
      "new" (fun _ => .gitExit)) = [] ∧
    cliNetworkUsed (cliSync (fun _ _ u => (u, false)) "bogus" [] [("a.txt", "x")] ["a.txt"] []
      "new" (fun _ => .gitExit)) = false ∧
    (2 : Nat) ≠ 0 :=
  invalid_strategy_fails_fast (fun _ _ u => (u, false)) "bogus" [] [("a.txt", "x")]
    ["a.txt"] [] "new" (fun _ => .gitExit) (by decide) (by decide) (by decide)

/-- Claim C9, counterexample: with an empty upstream content and an absent
local file, `_diff_file` returns `None` (the unified diff of two empty line
sequences is empty) although the local content (`None`, absent) is not equal
to the upstream content — contradicting both halves of the claim. -/
theorem diff_empty_upstream_cex :
    diffFile "" none "t.txt" = none ∧ (none : Option Content) ≠ some "" := by decide

/-- Claim C9, amended: `_diff_file` returns `None` exactly when the local
line sequence equals the upstream line sequence: for a present local content
that is exactly content equality, and for an absent local content (treated as
the empty sequence) it returns `None` exactly when the upstream content is
empty — so an absent local yields a non-`None` addition-only diff only for
non-empty upstream content. -/
theorem diff_none_iff_equal (up l : Content) (rel : RelPath) :
    (diffFile up (some l) rel = none ↔ l = up) ∧
    (diffFile up none rel = none ↔ up = "") := by
  have h0 : splitKeepends "" = [] := by decide
  constructor
  · constructor
    · intro h
      by_cases he : splitKeepends l = splitKeepends up
      · exact splitKeepends_injective l up he
      · simp [diffFile, he] at h
    · intro h
      subst h
      simp [diffFile]
  · constructor
    · intro h
      by_cases he : ([] : List (List Char)) = splitKeepends up
      · exact (splitKeepends_eq_nil_iff up).mp he.symm
      · simp [diffFile, he] at h
    · intro h
      subst h
      simp [diffFile, h0]

/-- Claim C10: when the lock file exists but its content strips to the empty
string, the lock read yields `some ""`, the early-exit comparison with a
non-empty upstream HEAD never fires, the base oracle is never consulted
(the result is the same for every base oracle), and the run completes as a
merge with the base treated as absent for every file. -/
theorem whitespace_lock_first_sync (gm : Content → Content → Content → Content × Bool)
    (target upstreamTree : FS) (includePaths excludedPaths : List RelPath)
    (sha : String) (w : Content)
    (hlock : lookupFS target lockFilePath = some w)
    (hws : pyStrip w = "") (hsha : sha ≠ "") :
    readLock target = some "" ∧
    (∀ bf : String → BaseFetch,
      syncRun gm "merge" target upstreamTree includePaths excludedPaths sha bf =
        SyncResult.done
          ⟨(mergeLoop gm target []
              (sortByKey (collectFiles upstreamTree includePaths
                (excludedSet upstreamTree excludedPaths)))).1,
           (mergeLoop gm target []
              (sortByKey (collectFiles upstreamTree includePaths
                (excludedSet upstreamTree excludedPaths)))).2.1,
           some sha,
           some (mergeLoop gm target []
              (sortByKey (collectFiles upstreamTree includePaths
                (excludedSet upstreamTree excludedPaths)))).2.2,
           []⟩) ∧
    (∀ bf bf2 : String → BaseFetch,
      syncRun gm "merge" target upstreamTree includePaths excludedPaths sha bf =
        syncRun gm "merge" target upstreamTree includePaths excludedPaths sha bf2) := by
  have hread : readLock target = some "" := by
    simp [readLock, hlock, hws]
  have hne : ¬ (readLock target = some sha) := by
    rw [hread]
    intro he
    exact hsha (by simpa using he.symm)
  have hmain : ∀ bf : String → BaseFetch,
      syncRun gm "merge" target upstreamTree includePaths excludedPaths sha bf =
        SyncResult.done
          ⟨(mergeLoop gm target []
              (sortByKey (collectFiles upstreamTree includePaths
                (excludedSet upstreamTree excludedPaths)))).1,
           (mergeLoop gm target []
              (sortByKey (collectFiles upstreamTree includePaths
                (excludedSet upstreamTree excludedPaths)))).2.1,
           some sha,
           some (mergeLoop gm target []
              (sortByKey (collectFiles upstreamTree includePaths
                (excludedSet upstreamTree excludedPaths)))).2.2,
           []⟩ := by
    intro bf
    have hne2 : ¬ ("" = sha) := fun he => hsha he.symm
    simp [syncRun, hread, hne, hne2]
  exact ⟨hread, hmain, fun bf bf2 => by rw [hmain bf, hmain bf2]⟩

/-- Witness for `whitespace_lock_first_sync` at a concrete input. -/
theorem whitespace_lock_first_sync_witness :
    readLock [(".rhiza/template.lock", " \n")] = some "" ∧
    (∀ bf : String → BaseFetch,
      syncRun (fun _ _ u => (u, false)) "merge" [(".rhiza/template.lock", " \n")]
        [("a.txt", "x")] ["a.txt"] [] "new" bf =
        SyncResult.done
          ⟨(mergeLoop (fun _ _ u => (u, false)) [(".rhiza/template.lock", " \n")] []
              (sortByKey (collectFiles [("a.txt", "x")] ["a.txt"]
                (excludedSet [("a.txt", "x")] [])))).1,
           (mergeLoop (fun _ _ u => (u, false)) [(".rhiza/template.lock", " \n")] []
              (sortByKey (collectFiles [("a.txt", "x")] ["a.txt"]
                (excludedSet [("a.txt", "x")] [])))).2.1,
           some "new",
           some (mergeLoop (fun _ _ u => (u, false)) [(".rhiza/template.lock", " \n")] []
              (sortByKey (collectFiles [("a.txt", "x")] ["a.txt"]
                (excludedSet [("a.txt", "x")] [])))).2.2,
           []⟩) ∧
    (∀ bf bf2 : String → BaseFetch,
      syncRun (fun _ _ u => (u, false)) "merge" [(".rhiza/template.lock", " \n")]
        [("a.txt", "x")] ["a.txt"] [] "new" bf =
      syncRun (fun _ _ u => (u, false)) "merge" [(".rhiza/template.lock", " \n")]
        [("a.txt", "x")] ["a.txt"] [] "new" bf2) :=
  whitespace_lock_first_sync (fun _ _ u => (u, false)) [(".rhiza/template.lock", " \n")]
    [("a.txt", "x")] ["a.txt"] [] "new" " \n" (by decide) (by decide) (by decide)

end Rhiza
